import Mathlib

/-!
Shallow embedding of the Triangles-task core (Glaze 2015 belief model,
trial/session generators) together with theorems settling the frozen
claims about it.

The belief model is translated from the `GlazeModel` class: machine
floating-point arithmetic is modelled by exact real arithmetic, and the
implicit `Math.random()` stream is modelled by an explicit tape of draws.
-/

noncomputable section

namespace GlazeModel

/-- One trial record as consumed by the model: the raw horizontal star
position and the user's binary choice (0 = left, 1 = right). -/
structure TrialData where
  starPosition : ℝ
  userChoice : ℕ
deriving Inhabited

/-- Geometry configuration used for the log-likelihood ratio. -/
structure TaskConfig where
  meanPosition : ℝ
  stdDev : ℝ

/-- The clamp applied to the hazard rate inside `psi`:
`Math.max(0.000001, Math.min(0.999999, H))`. -/
def clampH (H : ℝ) : ℝ := max 0.000001 (min 0.999999 H)

/-- Glaze equation 2, the time-varying prior expectation `psi`.  The
stability ratio `(1 - h) / h` is formed from the clamped hazard rate. -/
def psi (Ln_prev H : ℝ) : ℝ :=
  Ln_prev + Real.log ((1 - clampH H) / clampH H + Real.exp (-Ln_prev))
          - Real.log ((1 - clampH H) / clampH H + Real.exp Ln_prev)

/-- Glaze equation 1, the belief update rule `Ln = psi(Ln_prev, H) + LLRn`. -/
def updateBelief (Ln_prev LLRn H : ℝ) : ℝ := psi Ln_prev H + LLRn

/-- Log-likelihood ratio from screen position:
`(2 * meanPosition * x) / (stdDev * stdDev)`. -/
def calculateLLR (x : ℝ) (config : TaskConfig) : ℝ :=
  (2 * config.meanPosition * x) / (config.stdDev * config.stdDev)

/-- The loop body of `getBeliefTrajectory`: starting from the running
belief `currentL`, push each updated belief in order. -/
def getBeliefTrajectoryGo (config : TaskConfig) (H : ℝ) :
    List TrialData → ℝ → List ℝ
  | [], _ => []
  | t :: ts, currentL =>
      updateBelief currentL (calculateLLR t.starPosition config) H ::
        getBeliefTrajectoryGo config H ts
          (updateBelief currentL (calculateLLR t.starPosition config) H)

/-- Full belief trajectory for a sequence of trials at hazard rate `H`;
the running belief starts at the neutral prior 0. -/
def getBeliefTrajectory (data : List TrialData) (config : TaskConfig) (H : ℝ) :
    List ℝ :=
  getBeliefTrajectoryGo config H data 0

/-- Reference recursion written from the specification's words:
`L_0 = 0` and `L_n = psi(L_{n-1}, H) + LLR_n` with
`LLR = (2 * meanPosition * x) / stdDev^2` for the n-th observation. -/
def specBeliefRec (data : List TrialData) (config : TaskConfig) (H : ℝ) :
    ℕ → ℝ
  | 0 => 0
  | n + 1 =>
      psi (specBeliefRec data config H n) H +
        2 * config.meanPosition * (data.getD n default).starPosition /
          config.stdDev ^ 2

/-- Reference recursion started from an arbitrary previous belief, used to
relate the loop to the specification recursion. -/
def specBeliefRecFrom (L0 : ℝ) (data : List TrialData) (config : TaskConfig)
    (H : ℝ) : ℕ → ℝ
  | 0 => L0
  | n + 1 =>
      psi (specBeliefRecFrom L0 data config H n) H +
        2 * config.meanPosition * (data.getD n default).starPosition /
          config.stdDev ^ 2

lemma specBeliefRec_eq_from (data : List TrialData) (config : TaskConfig)
    (H : ℝ) : ∀ n, specBeliefRec data config H n =
      specBeliefRecFrom 0 data config H n := by
  intro n
  induction n with
  | zero => rfl
  | succ n ih => simp [specBeliefRec, specBeliefRecFrom, ih]

lemma clampH_lower (H : ℝ) : 0.000001 ≤ clampH H := le_max_left _ _

lemma clampH_upper (H : ℝ) : clampH H ≤ 0.999999 := by
  unfold clampH
  apply max_le (by norm_num) (min_le_left _ _)

lemma clampH_pos (H : ℝ) : 0 < clampH H :=
  lt_of_lt_of_le (by norm_num) (clampH_lower H)

lemma clampH_lt_one (H : ℝ) : clampH H < 1 :=
  lt_of_le_of_lt (clampH_upper H) (by norm_num)

/-- The stability ratio formed from the clamped hazard rate is positive. -/
lemma stability_pos (H : ℝ) : 0 < (1 - clampH H) / clampH H :=
  div_pos (by linarith [clampH_lt_one H]) (clampH_pos H)

lemma log_arg_neg_pos (H L : ℝ) :
    0 < (1 - clampH H) / clampH H + Real.exp (-L) :=
  add_pos (stability_pos H) (Real.exp_pos _)

lemma log_arg_pos (H L : ℝ) :
    0 < (1 - clampH H) / clampH H + Real.exp L :=
  add_pos (stability_pos H) (Real.exp_pos _)

/-- Claim C4: `psi` always works with the hazard rate clamped to
`[1e-6, 1 - 1e-6]`; the clamped rate is nonzero (so the stability-ratio
division is by a nonzero number) and both arguments ever passed to the
logarithm inside `psi` are strictly positive, so the belief update is
total for every real hazard rate, degenerate values included. -/
theorem psi_clamp_safety (H L : ℝ) :
    (1e-6 ≤ clampH H ∧ clampH H ≤ 1 - 1e-6) ∧ clampH H ≠ 0 ∧
      0 < (1 - clampH H) / clampH H + Real.exp (-L) ∧
      0 < (1 - clampH H) / clampH H + Real.exp L := by
  refine ⟨⟨?_, ?_⟩, ne_of_gt (clampH_pos H), log_arg_neg_pos H L,
    log_arg_pos H L⟩
  · have := clampH_lower H; norm_num at this ⊢; linarith
  · have := clampH_upper H; norm_num at this ⊢; linarith

/-- Claim C9: a neutral previous belief is a fixed point of the prediction
stage, `psi(0, H) = 0`, for every hazard rate. -/
theorem psi_zero (H : ℝ) : psi 0 H = 0 := by
  simp [psi]

/-- The prediction stage is an odd function of the previous belief. -/
lemma psi_neg (L H : ℝ) : psi (-L) H = -psi L H := by
  simp only [psi, neg_neg]
  ring

lemma psi_le_self_of_nonneg (H : ℝ) {L : ℝ} (hL : 0 ≤ L) : psi L H ≤ L := by
  have hmono : Real.log ((1 - clampH H) / clampH H + Real.exp (-L)) ≤
      Real.log ((1 - clampH H) / clampH H + Real.exp L) := by
    apply Real.log_le_log (log_arg_neg_pos H L)
    have : Real.exp (-L) ≤ Real.exp L := Real.exp_le_exp.mpr (by linarith)
    linarith
  simp only [psi]
  linarith

lemma neg_self_le_psi_of_nonneg (H : ℝ) {L : ℝ} (hL : 0 ≤ L) :
    -L ≤ psi L H := by
  set r : ℝ := (1 - clampH H) / clampH H with hr
  have hrpos : 0 < r := stability_pos H
  have hkey : r + Real.exp L ≤ Real.exp (2 * L) * (r + Real.exp (-L)) := by
    have h1 : Real.exp (2 * L) * Real.exp (-L) = Real.exp L := by
      rw [← Real.exp_add]; ring_nf
    have h2 : r ≤ Real.exp (2 * L) * r :=
      le_mul_of_one_le_left hrpos.le (Real.one_le_exp (by linarith))
    calc r + Real.exp L ≤ Real.exp (2 * L) * r + Real.exp L := by linarith
      _ = Real.exp (2 * L) * r + Real.exp (2 * L) * Real.exp (-L) := by
          rw [h1]
      _ = Real.exp (2 * L) * (r + Real.exp (-L)) := by ring
  have hlog : Real.log (r + Real.exp L) ≤
      2 * L + Real.log (r + Real.exp (-L)) := by
    have := Real.log_le_log (log_arg_pos H L) hkey
    rwa [Real.log_mul (ne_of_gt (Real.exp_pos _))
      (ne_of_gt (log_arg_neg_pos H L)), Real.log_exp] at this
  simp only [psi]
  linarith

/-- Claim C6: the prediction stage shrinks the belief toward 0 and never
increases its magnitude, `|psi(L_prev, H)| <= |L_prev|`. -/
theorem psi_contraction (L H : ℝ) : |psi L H| ≤ |L| := by
  rcases le_total 0 L with hL | hL
  · rw [abs_of_nonneg hL]
    exact abs_le.mpr ⟨neg_self_le_psi_of_nonneg H hL,
      psi_le_self_of_nonneg H hL⟩
  · have hM : 0 ≤ -L := by linarith
    have : psi L H = -psi (-L) H := by
      rw [psi_neg, neg_neg]
    rw [this, abs_neg, ← abs_neg L, abs_of_nonneg hM]
    exact abs_le.mpr ⟨neg_self_le_psi_of_nonneg H hM,
      psi_le_self_of_nonneg H hM⟩

lemma updateBelief_eq_spec (L x H : ℝ) (config : TaskConfig) :
    updateBelief L (calculateLLR x config) H =
      psi L H + 2 * config.meanPosition * x / config.stdDev ^ 2 := by
  simp [updateBelief, calculateLLR, pow_two]

lemma specBeliefRecFrom_zero (L0 : ℝ) (data : List TrialData)
    (config : TaskConfig) (H : ℝ) :
    specBeliefRecFrom L0 data config H 0 = L0 := rfl

lemma specBeliefRecFrom_succ (L0 : ℝ) (data : List TrialData)
    (config : TaskConfig) (H : ℝ) (n : ℕ) :
    specBeliefRecFrom L0 data config H (n + 1) =
      psi (specBeliefRecFrom L0 data config H n) H +
        2 * config.meanPosition * (data.getD n default).starPosition /
          config.stdDev ^ 2 := rfl

lemma specBeliefRecFrom_cons (L0 : ℝ) (t : TrialData) (ts : List TrialData)
    (config : TaskConfig) (H : ℝ) : ∀ n,
    specBeliefRecFrom L0 (t :: ts) config H (n + 1) =
      specBeliefRecFrom
        (psi L0 H + 2 * config.meanPosition * t.starPosition /
          config.stdDev ^ 2) ts config H n := by
  intro n
  induction n with
  | zero =>
      rw [specBeliefRecFrom_succ, specBeliefRecFrom_zero,
        specBeliefRecFrom_zero, List.getD_cons_zero]
  | succ n ih =>
      rw [specBeliefRecFrom_succ, ih, List.getD_cons_succ,
        specBeliefRecFrom_succ]

lemma getBeliefTrajectoryGo_spec (config : TaskConfig) (H : ℝ) :
    ∀ (data : List TrialData) (L0 : ℝ),
    getBeliefTrajectoryGo config H data L0 =
      (List.range data.length).map
        (fun n => specBeliefRecFrom L0 data config H (n + 1)) := by
  intro data
  induction data with
  | nil => intro L0; simp [getBeliefTrajectoryGo]
  | cons t ts ih =>
      intro L0
      simp only [getBeliefTrajectoryGo, List.length_cons,
        List.range_succ_eq_map, List.map_cons, List.map_map]
      congr 1
      · rw [specBeliefRecFrom_cons, updateBelief_eq_spec]
        rfl
      · rw [ih]
        apply List.map_congr_left
        intro n _
        simp only [Function.comp_apply]
        rw [specBeliefRecFrom_cons, updateBelief_eq_spec]

/-- Claim C1: for every evidence sequence and hazard rate, the belief
trajectory has exactly the length of its input, and its elements follow
the reference recursion `L_0 = 0`,
`L_n = psi(L_{n-1}, H) + (2 * meanPosition * x_n) / stdDev^2`:
the 0-indexed n-th trajectory entry is `L_{n+1}`. -/
theorem getBeliefTrajectory_spec (data : List TrialData) (config : TaskConfig)
    (H : ℝ) :
    (getBeliefTrajectory data config H).length = data.length ∧
    getBeliefTrajectory data config H =
      (List.range data.length).map
        (fun n => specBeliefRec data config H (n + 1)) := by
  have h : getBeliefTrajectory data config H =
      (List.range data.length).map
        (fun n => specBeliefRec data config H (n + 1)) := by
    unfold getBeliefTrajectory
    rw [getBeliefTrajectoryGo_spec]
    apply List.map_congr_left
    intro n _
    rw [specBeliefRec_eq_from]
  exact ⟨by rw [h]; simp, h⟩

/-- Fixed inverse temperature of the sigmoid choice readout. -/
def beta : ℝ := 1.0

/-- Probability that the model chooses right given belief `L`:
`1 / (1 + exp(-beta * L))`. -/
def probRight (L : ℝ) : ℝ := 1 / (1 + Real.exp (-beta * L))

/-- Likelihood of the actual user choice: `probRight` when the choice is
1, and `1 - probRight` (the probability of choosing left) otherwise. -/
def choiceLikelihood (L : ℝ) (userChoice : ℕ) : ℝ :=
  if userChoice = 1 then probRight L else 1 - probRight L

/-- Negative log-likelihood of the user's choices at hazard rate `H`: the
sum over trials of `-log(max(1e-10, likelihood))`, with the likelihood of
trial `i` evaluated at the i-th trajectory belief. -/
def calculateFitScore (data : List TrialData) (config : TaskConfig) (H : ℝ) :
    ℝ :=
  (List.zipWith
    (fun L t => -Real.log (max 1e-10 (choiceLikelihood L t.userChoice)))
    (getBeliefTrajectory data config H) data).sum

lemma probRight_pos (L : ℝ) : 0 < probRight L := by
  unfold probRight
  positivity

lemma probRight_lt_one (L : ℝ) : probRight L < 1 := by
  unfold probRight
  rw [div_lt_one (by positivity)]
  linarith [Real.exp_pos (-beta * L)]

lemma choiceLikelihood_pos (L : ℝ) (c : ℕ) : 0 < choiceLikelihood L c := by
  unfold choiceLikelihood
  split
  · exact probRight_pos L
  · linarith [probRight_lt_one L]

lemma choiceLikelihood_lt_one (L : ℝ) (c : ℕ) : choiceLikelihood L c < 1 := by
  unfold choiceLikelihood
  split
  · exact probRight_lt_one L
  · linarith [probRight_pos L]

/-- Each negative-log-likelihood term is nonnegative and at most
`log(10^10)`, thanks to the `1e-10` floor. -/
lemma nll_term_bounds {p : ℝ} (hp : 0 < p) (hp1 : p < 1) :
    0 ≤ -Real.log (max 1e-10 p) ∧
      -Real.log (max 1e-10 p) ≤ Real.log (10 ^ 10) := by
  have hmaxpos : (0 : ℝ) < max 1e-10 p := lt_max_of_lt_right hp
  constructor
  · have : Real.log (max 1e-10 p) ≤ 0 :=
      Real.log_nonpos hmaxpos.le (max_le (by norm_num) hp1.le)
    linarith
  · have hfloor : Real.log 1e-10 ≤ Real.log (max 1e-10 p) :=
      Real.log_le_log (by norm_num) (le_max_left _ _)
    have hinv : -Real.log (1e-10 : ℝ) = Real.log (10 ^ 10) := by
      rw [← Real.log_inv]
      norm_num
    linarith

lemma zipWith_nll_sum_bounds :
    ∀ (bs : List ℝ) (ds : List TrialData),
    0 ≤ (List.zipWith
        (fun L t => -Real.log (max 1e-10 (choiceLikelihood L t.userChoice)))
        bs ds).sum ∧
    (List.zipWith
        (fun L t => -Real.log (max 1e-10 (choiceLikelihood L t.userChoice)))
        bs ds).sum ≤
      (List.zipWith
        (fun L t => -Real.log (max 1e-10 (choiceLikelihood L t.userChoice)))
        bs ds).length * Real.log (10 ^ 10) := by
  intro bs
  induction bs with
  | nil => intro ds; simp
  | cons b bs ih =>
      intro ds
      cases ds with
      | nil => simp
      | cons d ds =>
          obtain ⟨h1, h2⟩ := ih ds
          obtain ⟨t1, t2⟩ := nll_term_bounds (choiceLikelihood_pos b d.userChoice)
            (choiceLikelihood_lt_one b d.userChoice)
          simp only [List.zipWith_cons_cons, List.sum_cons, List.length_cons]
          constructor
          · linarith
          · push_cast
            nlinarith

/-- Claim C7: the fit score is a well-defined finite real for every input:
it is nonnegative, and because every per-trial likelihood is floored at
`1e-10` before the logarithm, each term is at most `ln(10^10)`, so the
aggregate NLL is at most `n * ln(10^10)` for `n` trials. -/
theorem calculateFitScore_bounded (data : List TrialData) (config : TaskConfig)
    (H : ℝ) :
    0 ≤ calculateFitScore data config H ∧
      calculateFitScore data config H ≤ data.length * Real.log (10 ^ 10) := by
  obtain ⟨h1, h2⟩ := zipWith_nll_sum_bounds (getBeliefTrajectory data config H)
    data
  refine ⟨h1, le_trans h2 ?_⟩
  have hlen : (List.zipWith
      (fun L t => -Real.log (max 1e-10 (choiceLikelihood L t.userChoice)))
      (getBeliefTrajectory data config H) data).length ≤ data.length := by
    rw [List.length_zipWith]
    exact min_le_right _ _
  have hlog : (0 : ℝ) ≤ Real.log (10 ^ 10) :=
    Real.log_nonneg (by norm_num)
  have : ((List.zipWith
      (fun L t => -Real.log (max 1e-10 (choiceLikelihood L t.userChoice)))
      (getBeliefTrajectory data config H) data).length : ℝ) ≤
      (data.length : ℝ) := by exact_mod_cast hlen
  exact mul_le_mul_of_nonneg_right this hlog

/-- The hazard-rate candidates visited by the grid-search loop
`for (h = 0.001; h <= 0.999; h += 0.01)`: the values `0.001 + 0.01 * k`
for `k = 0, ..., 99` (the next value, `1.001`, fails the guard). -/
def gridCandidates : List ℝ :=
  (List.range 100).map (fun (k : ℕ) => 0.001 + 0.01 * (k : ℝ))

/-- The loop variable values `0.001 + 0.01 * k` satisfy the guard
`h <= 0.999` exactly for `k < 100`, so `gridCandidates` is precisely the
sequence of candidates the source's loop evaluates. -/
lemma gridCandidates_loop_guard :
    (∀ k : ℕ, k < 100 → 0.001 + 0.01 * (k : ℝ) ≤ 0.999) ∧
      ¬ (0.001 + 0.01 * ((100 : ℕ) : ℝ) ≤ 0.999) := by
  constructor
  · intro k hk
    have : (k : ℝ) ≤ 99 := by exact_mod_cast Nat.lt_succ_iff.mp hk
    nlinarith
  · norm_num

/-- State of the grid-search loop: the best hazard rate so far and the
minimal NLL so far, where `none` models the initial `Infinity` (every
finite score compares below it). -/
def fitLoop (score : ℝ → ℝ) : List ℝ → ℝ → Option ℝ → ℝ × Option ℝ
  | [], bestH, minNLL => (bestH, minNLL)
  | h :: rest, bestH, minNLL =>
      match minNLL with
      | none => fitLoop score rest h (some (score h))
      | some m =>
          if score h < m then fitLoop score rest h (some (score h))
          else fitLoop score rest bestH (some m)

/-- Result of the hazard fitter. -/
structure FitResult where
  fittedH : ℝ
  beliefTrajectory : List ℝ

/-- Grid search for the subjective hazard rate: scan `gridCandidates`
starting from `bestH = 0.5`, `minNLL = Infinity`, keep any candidate with
strictly smaller NLL, and return the best rate with the trajectory it
produces. -/
def fitSubjectiveH (data : List TrialData) (config : TaskConfig) :
    FitResult :=
  { fittedH := (fitLoop (fun h => calculateFitScore data config h)
      gridCandidates 0.5 none).1,
    beliefTrajectory := getBeliefTrajectory data config
      ((fitLoop (fun h => calculateFitScore data config h)
        gridCandidates 0.5 none).1) }

lemma gridCandidates_length : gridCandidates.length = 100 := by
  unfold gridCandidates
  rw [List.length_map, List.length_range]

lemma gridCandidates_getD (k : ℕ) (hk : k < 100) :
    gridCandidates.getD k 0 = 0.001 + 0.01 * (k : ℝ) := by
  unfold gridCandidates
  have hk' : k <
      ((List.range 100).map (fun (k : ℕ) => 0.001 + 0.01 * (k : ℝ))).length := by
    rw [List.length_map, List.length_range]; exact hk
  rw [List.getD_eq_getElem _ _ hk', List.getElem_map, List.getElem_range]

/-- One unfolding step of the loop in its initial `Infinity` state: any
finite score beats `Infinity`, so the first candidate is always taken. -/
lemma fitLoop_cons_none (score : ℝ → ℝ) (h : ℝ) (rest : List ℝ) (b : ℝ) :
    fitLoop score (h :: rest) b none =
      fitLoop score rest h (some (score h)) := rfl

/-- If no remaining candidate beats the current minimum, the loop keeps
its current state. -/
lemma fitLoop_stay (score : ℝ → ℝ) :
    ∀ (l : List ℝ) (b m : ℝ), (∀ x ∈ l, ¬ score x < m) →
      fitLoop score l b (some m) = (b, some m) := by
  intro l
  induction l with
  | nil => intro b m _; rfl
  | cons h rest ih =>
      intro b m hall
      have hh : ¬ score h < m := hall h (List.mem_cons_self h rest)
      simp only [fitLoop, if_neg hh]
      exact ih b m (fun x hx => hall x (List.mem_cons_of_mem h hx))

lemma getD_mem_of_lt (l : List ℝ) (j : ℕ) (hj : j < l.length) :
    l.getD j 0 ∈ l := by
  rw [List.getD_eq_getElem _ _ hj]
  exact List.getElem_mem hj

/-- Behaviour of the grid-search loop when started with a finite current
minimum: either nothing beats it and the state is kept, or the result is
the first-encountered candidate realizing the strict minimum. -/
lemma fitLoop_some_spec (score : ℝ → ℝ) :
    ∀ (l : List ℝ) (b m : ℝ),
    (fitLoop score l b (some m) = (b, some m) ∧ ∀ x ∈ l, m ≤ score x) ∨
    (∃ i, i < l.length ∧
      fitLoop score l b (some m) = (l.getD i 0, some (score (l.getD i 0))) ∧
      score (l.getD i 0) < m ∧
      (∀ j, j < l.length → score (l.getD i 0) ≤ score (l.getD j 0)) ∧
      (∀ j, j < i → score (l.getD i 0) < score (l.getD j 0))) := by
  intro l
  induction l with
  | nil =>
      intro b m
      exact Or.inl ⟨rfl, by simp⟩
  | cons h rest ih =>
      intro b m
      by_cases hlt : score h < m
      · have hstep : fitLoop score (h :: rest) b (some m) =
            fitLoop score rest h (some (score h)) := by
          simp only [fitLoop, if_pos hlt]
        rcases ih h (score h) with ⟨heq, hall⟩ | ⟨i, hi, heq, hlt2, hmin, hstrict⟩
        · refine Or.inr ⟨0, by simp, ?_, ?_, ?_, ?_⟩
          · rw [hstep, heq, List.getD_cons_zero]
          · rw [List.getD_cons_zero]; exact hlt
          · intro j hj
            rw [List.getD_cons_zero]
            cases j with
            | zero => rw [List.getD_cons_zero]
            | succ j' =>
                rw [List.getD_cons_succ]
                exact hall _ (getD_mem_of_lt rest j'
                  (by simpa using hj))
          · intro j hj; omega
        · refine Or.inr ⟨i + 1, by simpa using hi, ?_, ?_, ?_, ?_⟩
          · rw [hstep, heq, List.getD_cons_succ]
          · rw [List.getD_cons_succ]
            exact lt_trans hlt2 hlt
          · intro j hj
            rw [List.getD_cons_succ]
            cases j with
            | zero => rw [List.getD_cons_zero]; exact le_of_lt hlt2
            | succ j' =>
                rw [List.getD_cons_succ]
                exact hmin j' (by simpa using hj)
          · intro j hj
            rw [List.getD_cons_succ]
            cases j with
            | zero => rw [List.getD_cons_zero]; exact hlt2
            | succ j' =>
                rw [List.getD_cons_succ]
                exact hstrict j' (by omega)
      · have hstep : fitLoop score (h :: rest) b (some m) =
            fitLoop score rest b (some m) := by
          simp only [fitLoop, if_neg hlt]
        rcases ih b m with ⟨heq, hall⟩ | ⟨i, hi, heq, hlt2, hmin, hstrict⟩
        · refine Or.inl ⟨by rw [hstep, heq], ?_⟩
          intro x hx
          rcases List.mem_cons.mp hx with hx | hx
          · rw [hx]; exact not_lt.mp hlt
          · exact hall x hx
        · refine Or.inr ⟨i + 1, by simpa using hi, ?_, ?_, ?_, ?_⟩
          · rw [hstep, heq, List.getD_cons_succ]
          · rw [List.getD_cons_succ]; exact hlt2
          · intro j hj
            rw [List.getD_cons_succ]
            cases j with
            | zero =>
                rw [List.getD_cons_zero]
                exact le_of_lt (lt_of_lt_of_le hlt2 (not_lt.mp hlt))
            | succ j' =>
                rw [List.getD_cons_succ]
                exact hmin j' (by simpa using hj)
          · intro j hj
            rw [List.getD_cons_succ]
            cases j with
            | zero =>
                rw [List.getD_cons_zero]
                exact lt_of_lt_of_le hlt2 (not_lt.mp hlt)
            | succ j' =>
                rw [List.getD_cons_succ]
                exact hstrict j' (by omega)

/-- Started from `Infinity`, the grid-search loop over a nonempty list
returns the first-encountered candidate realizing the minimal score. -/
lemma fitLoop_none_spec (score : ℝ → ℝ) (l : List ℝ) (b0 : ℝ)
    (hne : l ≠ []) :
    ∃ i, i < l.length ∧
      fitLoop score l b0 none = (l.getD i 0, some (score (l.getD i 0))) ∧
      (∀ j, j < l.length → score (l.getD i 0) ≤ score (l.getD j 0)) ∧
      (∀ j, j < i → score (l.getD i 0) < score (l.getD j 0)) := by
  cases l with
  | nil => exact absurd rfl hne
  | cons h rest =>
      have hstep : fitLoop score (h :: rest) b0 none =
          fitLoop score rest h (some (score h)) := by
        simp only [fitLoop]
      rcases fitLoop_some_spec score rest h (score h) with
        ⟨heq, hall⟩ | ⟨i, hi, heq, hlt2, hmin, hstrict⟩
      · refine ⟨0, by simp, ?_, ?_, ?_⟩
        · rw [hstep, heq, List.getD_cons_zero]
        · intro j hj
          rw [List.getD_cons_zero]
          cases j with
          | zero => rw [List.getD_cons_zero]
          | succ j' =>
              rw [List.getD_cons_succ]
              exact hall _ (getD_mem_of_lt rest j' (by simpa using hj))
        · intro j hj; omega
      · refine ⟨i + 1, by simpa using hi, ?_, ?_, ?_⟩
        · rw [hstep, heq, List.getD_cons_succ]
        · intro j hj
          rw [List.getD_cons_succ]
          cases j with
          | zero => rw [List.getD_cons_zero]; exact le_of_lt hlt2
          | succ j' =>
              rw [List.getD_cons_succ]
              exact hmin j' (by simpa using hj)
        · intro j hj
          rw [List.getD_cons_succ]
          cases j with
          | zero => rw [List.getD_cons_zero]; exact hlt2
          | succ j' =>
              rw [List.getD_cons_succ]
              exact hstrict j' (by omega)

lemma gridCandidates_ne_nil : gridCandidates ≠ [] := by
  intro h
  have := gridCandidates_length
  rw [h] at this
  simp at this

/-- Counterexample to claim C2 as stated: `0.999` is not among the
hazard-rate candidates the grid search evaluates (the loop values are
`0.001 + 0.01 * k`, whose largest admissible instance is `0.991`). -/
theorem gridCandidates_missing_endpoint : (0.999 : ℝ) ∉ gridCandidates := by
  unfold gridCandidates
  intro hmem
  rw [List.mem_map] at hmem
  obtain ⟨k, hk, hEq⟩ := hmem
  rw [List.mem_range] at hk
  have hcast : (k : ℝ) ≤ 99 := by exact_mod_cast Nat.lt_succ_iff.mp hk
  nlinarith

/-- Claim C2 (amended): the grid search evaluates exactly the candidates
`0.001 + 0.01 * k` for `k = 0, ..., 99` (so `0.001, 0.011, ..., 0.991`,
not `0.999`), exhaustively with no early termination; the returned
`fittedH` is the first-encountered candidate of strictly minimal NLL, it
lies in `[0.001, 0.991]`, and the returned trajectory is
`getBeliefTrajectory` at that `fittedH`. -/
theorem fitSubjectiveH_grid_spec (data : List TrialData) (config : TaskConfig) :
    gridCandidates.length = 100 ∧
    (∀ k, k < 100 → gridCandidates.getD k 0 = 0.001 + 0.01 * (k : ℝ)) ∧
    (∃ i, i < 100 ∧
      (fitSubjectiveH data config).fittedH = gridCandidates.getD i 0 ∧
      (∀ j, j < 100 →
        calculateFitScore data config ((fitSubjectiveH data config).fittedH) ≤
          calculateFitScore data config (gridCandidates.getD j 0)) ∧
      (∀ j, j < i →
        calculateFitScore data config ((fitSubjectiveH data config).fittedH) <
          calculateFitScore data config (gridCandidates.getD j 0))) ∧
    0.001 ≤ (fitSubjectiveH data config).fittedH ∧
    (fitSubjectiveH data config).fittedH ≤ 0.991 ∧
    (fitSubjectiveH data config).beliefTrajectory =
      getBeliefTrajectory data config ((fitSubjectiveH data config).fittedH)
    := by
  obtain ⟨i, hi, heq, hmin, hstrict⟩ :=
    fitLoop_none_spec (fun h => calculateFitScore data config h)
      gridCandidates 0.5 gridCandidates_ne_nil
  have hi100 : i < 100 := by rwa [gridCandidates_length] at hi
  have hfit : (fitSubjectiveH data config).fittedH = gridCandidates.getD i 0 := by
    unfold fitSubjectiveH
    rw [heq]
  refine ⟨gridCandidates_length, gridCandidates_getD, ⟨i, hi100, hfit, ?_, ?_⟩,
    ?_, ?_, rfl⟩
  · intro j hj
    rw [hfit]
    exact hmin j (by rwa [gridCandidates_length])
  · intro j hj
    rw [hfit]
    exact hstrict j hj
  · rw [hfit, gridCandidates_getD i hi100]
    have : (0 : ℝ) ≤ (i : ℝ) := Nat.cast_nonneg i
    nlinarith
  · rw [hfit, gridCandidates_getD i hi100]
    have : (i : ℝ) ≤ 99 := by exact_mod_cast Nat.lt_succ_iff.mp hi100
    nlinarith

/-- Witness for the amended claim C2, at the concrete input of an empty
trial list and unit geometry. -/
theorem fitSubjectiveH_grid_spec_witness :
    gridCandidates.length = 100 ∧
    (∀ k, k < 100 → gridCandidates.getD k 0 = 0.001 + 0.01 * (k : ℝ)) ∧
    (∃ i, i < 100 ∧
      (fitSubjectiveH [] ⟨1, 1⟩).fittedH = gridCandidates.getD i 0 ∧
      (∀ j, j < 100 →
        calculateFitScore [] ⟨1, 1⟩ ((fitSubjectiveH [] ⟨1, 1⟩).fittedH) ≤
          calculateFitScore [] ⟨1, 1⟩ (gridCandidates.getD j 0)) ∧
      (∀ j, j < i →
        calculateFitScore [] ⟨1, 1⟩ ((fitSubjectiveH [] ⟨1, 1⟩).fittedH) <
          calculateFitScore [] ⟨1, 1⟩ (gridCandidates.getD j 0))) ∧
    0.001 ≤ (fitSubjectiveH [] ⟨1, 1⟩).fittedH ∧
    (fitSubjectiveH [] ⟨1, 1⟩).fittedH ≤ 0.991 ∧
    (fitSubjectiveH [] ⟨1, 1⟩).beliefTrajectory =
      getBeliefTrajectory [] ⟨1, 1⟩ ((fitSubjectiveH [] ⟨1, 1⟩).fittedH) :=
  fitSubjectiveH_grid_spec [] ⟨1, 1⟩

lemma calculateFitScore_nil (config : TaskConfig) (H : ℝ) :
    calculateFitScore [] config H = 0 := by
  simp [calculateFitScore, getBeliefTrajectory, getBeliefTrajectoryGo]

/-- Claim C10: on the empty trial sequence the trajectory is empty, the
fit score is exactly 0, and the grid search returns the first candidate
`0.001` (all candidates tie at NLL 0) with an empty trajectory. -/
theorem empty_data_behavior (config : TaskConfig) (H : ℝ) :
    getBeliefTrajectory [] config H = [] ∧
    calculateFitScore [] config H = 0 ∧
    (fitSubjectiveH [] config).fittedH = 0.001 ∧
    (fitSubjectiveH [] config).beliefTrajectory = [] := by
  have h100 : (100 : ℕ) = 99 + 1 := by norm_num
  have hgrid : gridCandidates = (0.001 + 0.01 * ((0 : ℕ) : ℝ)) ::
      (List.range 99).map
        (fun (k : ℕ) => 0.001 + 0.01 * ((Nat.succ k : ℕ) : ℝ)) := by
    unfold gridCandidates
    rw [h100, List.range_succ_eq_map, List.map_cons, List.map_map]
    rfl
  have hfit : (fitSubjectiveH [] config).fittedH = 0.001 := by
    show (fitLoop (fun h => calculateFitScore [] config h) gridCandidates
      0.5 none).1 = 0.001
    rw [hgrid, fitLoop_cons_none, fitLoop_stay]
    · norm_num
    · intro x hx
      rw [calculateFitScore_nil, calculateFitScore_nil]
      norm_num
  exact ⟨rfl, calculateFitScore_nil config H, hfit, rfl⟩

end GlazeModel

/-! Trial and session generation, translated from the math utilities.
`Math.random()` draws are modelled by an explicit tape of real draws; the
unbounded rejection-resampling loop is modelled with a fuel parameter,
returning `none` when the fuel is exhausted (the JS loop would still be
running), so every `some` result is one the source code can produce. -/

/-- Screen position of the left source mean. -/
def LEFT_SOURCE_MEAN : ℝ := 0.25

/-- Screen position of the right source mean. -/
def RIGHT_SOURCE_MEAN : ℝ := 0.75

/-- Allowed hazard rates for multi-block sessions. -/
def ALLOWED_HAZARD_RATES : List ℝ := [0.05, 0.1, 0.3, 0.5, 0.7, 0.9, 0.95]

/-- Emitted source label of a trial. -/
inductive SourceSide
  | left
  | right
deriving DecidableEq, Inhabited

/-- One generated trial. -/
structure Trial where
  trialIndex : ℕ
  source : SourceSide
  x : ℝ
  y : ℝ
deriving Inhabited

/-- The random draws a single block generation consumes: the initial
source draw, the per-trial switch draw, and the post-resampling
Box-Muller uniforms for the x proposals (per trial and attempt) and for
y (per trial). -/
structure RandomTape where
  initDraw : ℝ
  switchDraw : ℕ → ℝ
  xU : ℕ → ℕ → ℝ
  xV : ℕ → ℕ → ℝ
  yU : ℕ → ℝ
  yV : ℕ → ℝ

/-- Box-Muller transform of two uniform draws into one standard-normal
sample. -/
def randn_bm (u v : ℝ) : ℝ :=
  Real.sqrt (-2.0 * Real.log u) * Real.cos (2.0 * Real.pi * v)

/-- The screen clamp `Math.max(0.05, Math.min(0.95, x))`. -/
def clampUnit (x : ℝ) : ℝ := max 0.05 (min 0.95 x)

/-- Initial source: 0 (left) when the first draw is below one half,
else 1 (right). -/
def initialSource (tape : RandomTape) : ℕ :=
  if tape.initDraw < 0.5 then 0 else 1

/-- Source flip `currentSource === 0 ? 1 : 0`. -/
def flipSource (src : ℕ) : ℕ := if src = 0 then 1 else 0

/-- Emitted label of a numeric source. -/
def sideOf (src : ℕ) : SourceSide :=
  if src = 0 then SourceSide.left else SourceSide.right

/-- One clamped Gaussian x proposal for trial `i`, attempt `j`. -/
def proposeX (muX actualSigma : ℝ) (tape : RandomTape) (i j : ℕ) : ℝ :=
  clampUnit (muX + randn_bm (tape.xU i j) (tape.xV i j) * actualSigma)

/-- The rejection-resampling loop on x: keep proposing until the proposal
leaves the exclusion band `|x - 0.5| < 0.01`, with a fuel bound standing
in for the unbounded JS loop. -/
def sampleXLoop (muX actualSigma : ℝ) (tape : RandomTape) (i : ℕ) :
    ℕ → ℕ → Option ℝ
  | 0, _ => none
  | fuel + 1, j =>
      if |proposeX muX actualSigma tape i j - 0.5| < 0.01 then
        sampleXLoop muX actualSigma tape i fuel (j + 1)
      else some (proposeX muX actualSigma tape i j)

/-- Main loop of `generateBlockTrials`: `n` trials remaining, current
trial index `i`, current source `src`. -/
def generateBlockTrialsGo (hazardRate actualSigma : ℝ) (tape : RandomTape)
    (fuel : ℕ) : ℕ → ℕ → ℕ → Option (List Trial)
  | 0, _, _ => some []
  | n + 1, i, src =>
      let srcNew := if tape.switchDraw i < hazardRate then flipSource src
        else src
      let muX := if srcNew = 0 then LEFT_SOURCE_MEAN else RIGHT_SOURCE_MEAN
      let y := clampUnit (0.5 + randn_bm (tape.yU i) (tape.yV i) * actualSigma)
      (sampleXLoop muX actualSigma tape i fuel 0).bind (fun x =>
        (generateBlockTrialsGo hazardRate actualSigma tape fuel n (i + 1)
          srcNew).map
          (fun rest =>
            { trialIndex := i, source := sideOf srcNew, x := x, y := y } ::
              rest))

/-- Generates the source sequence and star positions for a single block:
`distance = RIGHT_SOURCE_MEAN - LEFT_SOURCE_MEAN` and
`actualSigma = sigmaRat * distance` as in the source, then the per-trial
loop. -/
def generateBlockTrials (trialCount : ℕ) (hazardRate sigmaRat : ℝ)
    (tape : RandomTape) (fuel : ℕ) : Option (List Trial) :=
  generateBlockTrialsGo hazardRate
    (sigmaRat * (RIGHT_SOURCE_MEAN - LEFT_SOURCE_MEAN)) tape fuel
    trialCount 0 (initialSource tape)

lemma clampUnit_lower (x : ℝ) : 0.05 ≤ clampUnit x := le_max_left _ _

lemma clampUnit_upper (x : ℝ) : clampUnit x ≤ 0.95 :=
  max_le (by norm_num) (min_le_left _ _)

/-- Every `some` result of the rejection loop is clamped to
`[0.05, 0.95]` and outside the exclusion band. -/
lemma sampleXLoop_bounds (muX actualSigma : ℝ) (tape : RandomTape) (i : ℕ) :
    ∀ (fuel j : ℕ) (x : ℝ), sampleXLoop muX actualSigma tape i fuel j = some x →
      0.05 ≤ x ∧ x ≤ 0.95 ∧ 0.01 ≤ |x - 0.5| := by
  intro fuel
  induction fuel with
  | zero => intro j x h; exact absurd h (by simp [sampleXLoop])
  | succ fuel ih =>
      intro j x h
      by_cases hband : |proposeX muX actualSigma tape i j - 0.5| < 0.01
      · rw [sampleXLoop, if_pos hband] at h
        exact ih (j + 1) x h
      · rw [sampleXLoop, if_neg hband] at h
        obtain rfl : proposeX muX actualSigma tape i j = x :=
          Option.some_injective _ h
        exact ⟨clampUnit_lower _, clampUnit_upper _, not_lt.mp hband⟩

/-- Block-loop invariant: every emitted trial has clamped coordinates and
an x outside the exclusion band. -/
lemma generateBlockTrialsGo_bounds (hazardRate actualSigma : ℝ)
    (tape : RandomTape) (fuel : ℕ) :
    ∀ (n i src : ℕ) (trials : List Trial),
      generateBlockTrialsGo hazardRate actualSigma tape fuel n i src =
        some trials →
      ∀ t ∈ trials, 0.05 ≤ t.x ∧ t.x ≤ 0.95 ∧ 0.05 ≤ t.y ∧ t.y ≤ 0.95 ∧
        0.01 ≤ |t.x - 0.5| := by
  intro n
  induction n with
  | zero =>
      intro i src trials h t ht
      rw [generateBlockTrialsGo] at h
      obtain rfl : ([] : List Trial) = trials := Option.some_injective _ h
      exact absurd ht (List.not_mem_nil t)
  | succ n ih =>
      intro i src trials h t ht
      rw [generateBlockTrialsGo] at h
      rw [Option.bind_eq_some] at h
      obtain ⟨x, hx, hmap⟩ := h
      rw [Option.map_eq_some'] at hmap
      obtain ⟨rest, hrest, rfl⟩ := hmap
      rcases List.mem_cons.mp ht with rfl | htail
      · obtain ⟨h1, h2, h3⟩ := sampleXLoop_bounds _ _ tape i fuel 0 x hx
        exact ⟨h1, h2, clampUnit_lower _, clampUnit_upper _, h3⟩
      · exact ih (i + 1) _ rest hrest t htail

/-- Claim C3: every trial emitted by `generateBlockTrials` — for any
trial count, hazard rate, noise ratio, random draws and fuel — satisfies
`0.05 <= x <= 0.95`, `0.05 <= y <= 0.95` and `|x - 0.5| >= 0.01` (the
band is enforced by the rejection loop; y has no band constraint). -/
theorem generateBlockTrials_bounds (trialCount : ℕ) (hazardRate sigmaRat : ℝ)
    (tape : RandomTape) (fuel : ℕ) (trials : List Trial)
    (hgen : generateBlockTrials trialCount hazardRate sigmaRat tape fuel =
      some trials) :
    ∀ t ∈ trials, 0.05 ≤ t.x ∧ t.x ≤ 0.95 ∧ 0.05 ≤ t.y ∧ t.y ≤ 0.95 ∧
      0.01 ≤ |t.x - 0.5| :=
  generateBlockTrialsGo_bounds hazardRate _ tape fuel trialCount 0
    (initialSource tape) trials hgen

/-- Label swap on emitted sides. -/
def flipSide : SourceSide → SourceSide
  | SourceSide.left => SourceSide.right
  | SourceSide.right => SourceSide.left

lemma sideOf_flip (s : ℕ) : sideOf (flipSource s) = flipSide (sideOf s) := by
  unfold sideOf flipSource flipSide
  by_cases h : s = 0 <;> simp [h]

/-- With hazard rate 0, the switch draw (nonnegative, as a uniform draw
is) never fires, so every trial keeps the starting source. -/
lemma generateBlockTrialsGo_h0 (actualSigma : ℝ) (tape : RandomTape)
    (fuel : ℕ) (hd : ∀ i, 0 ≤ tape.switchDraw i) :
    ∀ (n i src : ℕ) (trials : List Trial),
      generateBlockTrialsGo 0 actualSigma tape fuel n i src = some trials →
      ∀ t ∈ trials, t.source = sideOf src := by
  intro n
  induction n with
  | zero =>
      intro i src trials h t ht
      rw [generateBlockTrialsGo] at h
      obtain rfl : ([] : List Trial) = trials := Option.some_injective _ h
      exact absurd ht (List.not_mem_nil t)
  | succ n ih =>
      intro i src trials h t ht
      rw [generateBlockTrialsGo] at h
      rw [if_neg (not_lt.mpr (hd i))] at h
      rw [Option.bind_eq_some] at h
      obtain ⟨x, hx, hmap⟩ := h
      rw [Option.map_eq_some'] at hmap
      obtain ⟨rest, hrest, rfl⟩ := hmap
      rcases List.mem_cons.mp ht with rfl | htail
      · rfl
      · exact ih (i + 1) src rest hrest t htail

/-- With hazard rate 1, each switch draw (strictly below 1, as a uniform
draw is) fires, so the source flips on every trial. -/
lemma generateBlockTrialsGo_h1 (actualSigma : ℝ) (tape : RandomTape)
    (fuel : ℕ) (hd : ∀ i, tape.switchDraw i < 1) :
    ∀ (n i src : ℕ) (trials : List Trial),
      generateBlockTrialsGo 1 actualSigma tape fuel n i src = some trials →
      trials.length = n ∧
      (0 < trials.length →
        (trials.getD 0 default).source = flipSide (sideOf src)) ∧
      (∀ k, k + 1 < trials.length →
        (trials.getD (k + 1) default).source =
          flipSide ((trials.getD k default).source)) := by
  intro n
  induction n with
  | zero =>
      intro i src trials h
      rw [generateBlockTrialsGo] at h
      obtain rfl : ([] : List Trial) = trials := Option.some_injective _ h
      exact ⟨rfl, by simp, by simp⟩
  | succ n ih =>
      intro i src trials h
      rw [generateBlockTrialsGo] at h
      rw [if_pos (hd i)] at h
      rw [Option.bind_eq_some] at h
      obtain ⟨x, hx, hmap⟩ := h
      rw [Option.map_eq_some'] at hmap
      obtain ⟨rest, hrest, rfl⟩ := hmap
      obtain ⟨hlen, hhead, hcons⟩ := ih (i + 1) (flipSource src) rest hrest
      refine ⟨by simp [hlen], ?_, ?_⟩
      · intro _
        rw [List.getD_cons_zero]
        exact sideOf_flip src
      · intro k hk
        cases k with
        | zero =>
            rw [List.getD_cons_succ, List.getD_cons_zero]
            have hpos : 0 < rest.length := by
              simp only [List.length_cons] at hk
              omega
            rw [hhead hpos]
        | succ k' =>
            rw [List.getD_cons_succ, List.getD_cons_succ]
            apply hcons
            simp only [List.length_cons] at hk
            omega

/-- Claim C8: with each random draw in `[0, 1)`, a block generated at
hazard rate 0 never switches away from the initial source, and a block
generated at hazard rate 1 switches deterministically on every trial
(the first trial flips the initial source, and consecutive trials carry
opposite sources). -/
theorem generateBlockTrials_extreme_hazard (trialCount : ℕ) (sigmaRat : ℝ)
    (tape : RandomTape) (fuel : ℕ) (trials0 trials1 : List Trial)
    (hd0 : ∀ i, 0 ≤ tape.switchDraw i) (hd1 : ∀ i, tape.switchDraw i < 1)
    (hgen0 : generateBlockTrials trialCount 0 sigmaRat tape fuel =
      some trials0)
    (hgen1 : generateBlockTrials trialCount 1 sigmaRat tape fuel =
      some trials1) :
    (∀ t ∈ trials0, t.source = sideOf (initialSource tape)) ∧
    (0 < trials1.length →
      (trials1.getD 0 default).source =
        flipSide (sideOf (initialSource tape))) ∧
    (∀ k, k + 1 < trials1.length →
      (trials1.getD (k + 1) default).source =
        flipSide ((trials1.getD k default).source)) := by
  refine ⟨generateBlockTrialsGo_h0 _ tape fuel hd0 trialCount 0
    (initialSource tape) trials0 hgen0, ?_, ?_⟩
  · exact (generateBlockTrialsGo_h1 _ tape fuel hd1 trialCount 0
      (initialSource tape) trials1 hgen1).2.1
  · exact (generateBlockTrialsGo_h1 _ tape fuel hd1 trialCount 0
      (initialSource tape) trials1 hgen1).2.2

/-- The session configuration fields the generator reads (the remaining
UI-only fields of the source's config record are omitted). -/
structure LabConfig where
  hazardRate : ℝ
  distributionSigma : ℝ
  trialCount : ℕ
  blockCount : ℕ

/-- One block of a session. -/
structure SessionBlock where
  blockId : ℕ
  hazardRate : ℝ
  trials : List Trial
deriving Inhabited

/-- Random inputs of session generation: the pool after the comparator
shuffle (an arbitrary permutation of the allowed rates), the
with-replacement pick indices `floor(random * pool.length)`, and one
block-generation tape per block.  Note the source shuffles the pool array
in place, so the phase-2 picks index the shuffled pool. -/
structure SessionTape where
  shuffledPool : List ℝ
  pickIdx : ℕ → ℕ
  blockTape : ℕ → RandomTape

/-- Hazard rate of block index `b` (0-based): the shuffled pool's `b`-th
element during the without-replacement phase, afterwards a random pick
from the (shuffled-in-place) pool. -/
def hazardPick (stape : SessionTape) (b : ℕ) : ℝ :=
  if b < stape.shuffledPool.length then stape.shuffledPool.getD b 0
  else stape.shuffledPool.getD (stape.pickIdx b) 0

/-- Multi-block loop of `generateSessionData`: `n` blocks remaining,
current 0-based block index `b`. -/
def sessionGo (config : LabConfig) (stape : SessionTape) (fuel : ℕ) :
    ℕ → ℕ → Option (List SessionBlock)
  | 0, _ => some []
  | n + 1, b =>
      (generateBlockTrials config.trialCount (hazardPick stape b)
        config.distributionSigma (stape.blockTape b) fuel).bind (fun ts =>
        (sessionGo config stape fuel n (b + 1)).map
          (fun rest =>
            { blockId := b + 1, hazardRate := hazardPick stape b,
              trials := ts } :: rest))

/-- Generates a full session: single-block mode uses the configured
hazard rate verbatim; multi-block mode draws rates from the allowed pool
via `hazardPick`. -/
def generateSessionData (config : LabConfig) (stape : SessionTape)
    (fuel : ℕ) : Option (List SessionBlock) :=
  if config.blockCount = 1 then
    (generateBlockTrials config.trialCount config.hazardRate
      config.distributionSigma (stape.blockTape 0) fuel).map
      (fun ts =>
        [{ blockId := 1, hazardRate := config.hazardRate, trials := ts }])
  else
    sessionGo config stape fuel config.blockCount 0

/-- The multi-block loop emits `n` blocks with sequential 1-based ids and
hazard rates given by `hazardPick`. -/
lemma sessionGo_spec (config : LabConfig) (stape : SessionTape) (fuel : ℕ) :
    ∀ (n b : ℕ) (blocks : List SessionBlock),
      sessionGo config stape fuel n b = some blocks →
      blocks.length = n ∧
      ∀ k, k < n → (blocks.getD k default).blockId = b + k + 1 ∧
        (blocks.getD k default).hazardRate = hazardPick stape (b + k) := by
  intro n
  induction n with
  | zero =>
      intro b blocks h
      rw [sessionGo] at h
      obtain rfl : ([] : List SessionBlock) = blocks :=
        Option.some_injective _ h
      exact ⟨rfl, fun k hk => absurd hk (by omega)⟩
  | succ n ih =>
      intro b blocks h
      rw [sessionGo] at h
      rw [Option.bind_eq_some] at h
      obtain ⟨ts, hts, hmap⟩ := h
      rw [Option.map_eq_some'] at hmap
      obtain ⟨rest, hrest, rfl⟩ := hmap
      obtain ⟨hlen, hrest_spec⟩ := ih (b + 1) rest hrest
      refine ⟨by simp [hlen], ?_⟩
      intro k hk
      cases k with
      | zero =>
          rw [List.getD_cons_zero]
          exact ⟨rfl, by simp⟩
      | succ k' =>
          rw [List.getD_cons_succ]
          obtain ⟨h1, h2⟩ := hrest_spec k' (by omega)
          constructor
          · rw [h1]; omega
          · rw [h2]; congr 1; omega

lemma ALLOWED_HAZARD_RATES_nodup : ALLOWED_HAZARD_RATES.Nodup := by
  unfold ALLOWED_HAZARD_RATES
  norm_num [List.nodup_cons]

lemma ALLOWED_HAZARD_RATES_length : ALLOWED_HAZARD_RATES.length = 7 := rfl

/-- Under a valid tape, `hazardPick` always lands in the allowed pool. -/
lemma hazardPick_mem (stape : SessionTape)
    (hperm : stape.shuffledPool.Perm ALLOWED_HAZARD_RATES)
    (hpick : ∀ b, stape.pickIdx b < ALLOWED_HAZARD_RATES.length) (b : ℕ) :
    hazardPick stape b ∈ ALLOWED_HAZARD_RATES := by
  unfold hazardPick
  split
  · exact hperm.mem_iff.mp
      (GlazeModel.getD_mem_of_lt _ _ (by assumption))
  · refine hperm.mem_iff.mp (GlazeModel.getD_mem_of_lt _ _ ?_)
    rw [hperm.length_eq]
    exact hpick b

/-- Claim C5: a generated session has exactly `blockCount` blocks with
1-based sequential ids; with `blockCount = 1` the single block carries
the configured hazard rate verbatim; with `blockCount > 1` (and the
shuffle being a permutation of the pool, the with-replacement picks in
range) every block's rate is in the allowed pool and the first
`min(blockCount, 7)` blocks carry pairwise distinct rates. -/
theorem generateSessionData_spec (config : LabConfig) (stape : SessionTape)
    (fuel : ℕ) (blocks : List SessionBlock)
    (hperm : stape.shuffledPool.Perm ALLOWED_HAZARD_RATES)
    (hpick : ∀ b, stape.pickIdx b < ALLOWED_HAZARD_RATES.length)
    (hc : 1 ≤ config.blockCount)
    (hgen : generateSessionData config stape fuel = some blocks) :
    blocks.length = config.blockCount ∧
    (∀ k, k < blocks.length → (blocks.getD k default).blockId = k + 1) ∧
    (config.blockCount = 1 →
      ∀ k, k < blocks.length →
        (blocks.getD k default).hazardRate = config.hazardRate) ∧
    (1 < config.blockCount →
      (∀ blk ∈ blocks, blk.hazardRate ∈ ALLOWED_HAZARD_RATES) ∧
      (∀ i j, i < min config.blockCount 7 → j < min config.blockCount 7 →
        i ≠ j →
        (blocks.getD i default).hazardRate ≠
          (blocks.getD j default).hazardRate)) := by
  have hpoolLen : stape.shuffledPool.length = 7 := by
    rw [hperm.length_eq]; rfl
  have hnodup : stape.shuffledPool.Nodup :=
    hperm.nodup_iff.mpr ALLOWED_HAZARD_RATES_nodup
  by_cases h1 : config.blockCount = 1
  · rw [generateSessionData, if_pos h1, Option.map_eq_some'] at hgen
    obtain ⟨ts, _, rfl⟩ := hgen
    refine ⟨by simp [h1], ?_, ?_, ?_⟩
    · intro k hk
      simp only [List.length_cons, List.length_nil] at hk
      interval_cases k
      rfl
    · intro _ k hk
      simp only [List.length_cons, List.length_nil] at hk
      interval_cases k
      rfl
    · intro hgt
      omega
  · rw [generateSessionData, if_neg h1] at hgen
    obtain ⟨hlen, hspec⟩ := sessionGo_spec config stape fuel
      config.blockCount 0 blocks hgen
    have hid : ∀ k, k < blocks.length →
        (blocks.getD k default).blockId = k + 1 := by
      intro k hk
      have := (hspec k (by omega)).1
      omega
    have hrate : ∀ k, k < blocks.length →
        (blocks.getD k default).hazardRate = hazardPick stape k := by
      intro k hk
      have := (hspec k (by omega)).2
      rwa [Nat.zero_add] at this
    refine ⟨hlen, hid, fun he => absurd he h1, fun _ => ⟨?_, ?_⟩⟩
    · intro blk hblk
      obtain ⟨k, hk, hEq⟩ := List.mem_iff_getElem.mp hblk
      have hgd : blocks.getD k default = blk := by
        rw [List.getD_eq_getElem _ _ hk, hEq]
      rw [← hgd, hrate k hk]
      exact hazardPick_mem stape hperm hpick k
    · intro i j hi hj hne
      have hib : i < blocks.length := by omega
      have hjb : j < blocks.length := by omega
      rw [hrate i hib, hrate j hjb]
      have hi7 : i < stape.shuffledPool.length := by omega
      have hj7 : j < stape.shuffledPool.length := by omega
      unfold hazardPick
      rw [if_pos hi7, if_pos hj7, List.getD_eq_getElem _ _ hi7,
        List.getD_eq_getElem _ _ hj7]
      intro hEq
      exact hne (hnodup.getElem_inj_iff.mp hEq)

/-! Concrete random tapes and evaluations used to witness the generator
theorems on explicit inputs. -/

/-- A concrete tape: initial draw 0.6 (right source), switch draws 0.5,
Box-Muller uniforms (1, 0) so that every normal sample is 0. -/
def constTape : RandomTape where
  initDraw := 0.6
  switchDraw := fun _ => 0.5
  xU := fun _ _ => 1
  xV := fun _ _ => 0
  yU := fun _ => 1
  yV := fun _ => 0

lemma randn_bm_one (v : ℝ) : randn_bm 1 v = 0 := by
  simp [randn_bm]

lemma clampUnit_id {x : ℝ} (h1 : 0.05 ≤ x) (h2 : x ≤ 0.95) :
    clampUnit x = x := by
  unfold clampUnit
  rw [min_eq_right h2, max_eq_right h1]

lemma initialSource_constTape : initialSource constTape = 1 := by
  show (if (0.6 : ℝ) < 0.5 then 0 else 1) = 1
  rw [if_neg (by norm_num : ¬ (0.6 : ℝ) < 0.5)]

lemma proposeX_constTape (muX σa : ℝ) (i j : ℕ) (h1 : 0.05 ≤ muX)
    (h2 : muX ≤ 0.95) : proposeX muX σa constTape i j = muX := by
  show clampUnit (muX + randn_bm 1 0 * σa) = muX
  rw [randn_bm_one, zero_mul, add_zero, clampUnit_id h1 h2]

lemma sampleXLoop_constTape_one (muX σa : ℝ) (i : ℕ) (h1 : 0.05 ≤ muX)
    (h2 : muX ≤ 0.95) (h3 : ¬ |muX - 0.5| < 0.01) :
    sampleXLoop muX σa constTape i 1 0 = some muX := by
  show (if |proposeX muX σa constTape i 0 - 0.5| < 0.01 then
      sampleXLoop muX σa constTape i 0 1
    else some (proposeX muX σa constTape i 0)) = some muX
  rw [proposeX_constTape muX σa i 0 h1 h2, if_neg h3]

/-- One evaluated step of the block loop on the constant tape. -/
lemma generateBlockTrialsGo_constTape_step (hR σa : ℝ)
    (fuel n m i src srcNew : ℕ) (muX : ℝ)
    (hn : n = m + 1)
    (hsrc : (if (0.5 : ℝ) < hR then flipSource src else src) = srcNew)
    (hmu : (if srcNew = 0 then LEFT_SOURCE_MEAN else RIGHT_SOURCE_MEAN) = muX)
    (hsample : sampleXLoop muX σa constTape i fuel 0 = some muX) :
    generateBlockTrialsGo hR σa constTape fuel n i src =
      (generateBlockTrialsGo hR σa constTape fuel m (i + 1) srcNew).map
        (fun rest =>
          ({ trialIndex := i, source := sideOf srcNew, x := muX, y := 0.5 } :
            Trial) :: rest) := by
  subst hn
  rw [generateBlockTrialsGo]
  have hdraw : constTape.switchDraw i = 0.5 := rfl
  have hbm : randn_bm (constTape.yU i) (constTape.yV i) = 0 := randn_bm_one _
  simp only [hdraw, hsrc, hmu, hbm, zero_mul, add_zero,
    show clampUnit (0.5 : ℝ) = 0.5 from
      clampUnit_id (by norm_num) (by norm_num),
    hsample, Option.some_bind]

/-- Trial produced by the constant tape with a non-firing switch draw. -/
def witnessTrialR : Trial :=
  { trialIndex := 0, source := SourceSide.right, x := 0.75, y := 0.5 }

/-- Two-trial block on the constant tape without switching. -/
def wTrials0 : List Trial :=
  [{ trialIndex := 0, source := SourceSide.right, x := 0.75, y := 0.5 },
   { trialIndex := 1, source := SourceSide.right, x := 0.75, y := 0.5 }]

/-- Two-trial block on the constant tape with a switch on every trial. -/
def wTrials1 : List Trial :=
  [{ trialIndex := 0, source := SourceSide.left, x := 0.25, y := 0.5 },
   { trialIndex := 1, source := SourceSide.right, x := 0.75, y := 0.5 }]

lemma generateBlockTrials_constTape_one (hR : ℝ) (hsw : ¬ (0.5 : ℝ) < hR) :
    generateBlockTrials 1 hR 0.24 constTape 1 = some [witnessTrialR] := by
  show generateBlockTrialsGo hR (0.24 * (RIGHT_SOURCE_MEAN - LEFT_SOURCE_MEAN))
      constTape 1 1 0 (initialSource constTape) = _
  rw [initialSource_constTape]
  rw [generateBlockTrialsGo_constTape_step hR _ 1 1 0 0 1 1 0.75 rfl
    (by rw [if_neg hsw]) (by rw [if_neg (Nat.one_ne_zero)]; rfl)
    (sampleXLoop_constTape_one 0.75 _ 0 (by norm_num) (by norm_num)
      (by rw [abs_sub_lt_iff]; push_neg; norm_num))]
  simp [generateBlockTrialsGo, sideOf, witnessTrialR]

lemma generateBlockTrials_constTape_two_stay (hR : ℝ)
    (hsw : ¬ (0.5 : ℝ) < hR) :
    generateBlockTrials 2 hR 0.24 constTape 1 = some wTrials0 := by
  show generateBlockTrialsGo hR (0.24 * (RIGHT_SOURCE_MEAN - LEFT_SOURCE_MEAN))
      constTape 1 2 0 (initialSource constTape) = _
  rw [initialSource_constTape]
  rw [generateBlockTrialsGo_constTape_step hR _ 1 2 1 0 1 1 0.75 rfl
    (by rw [if_neg hsw]) (by rw [if_neg (Nat.one_ne_zero)]; rfl)
    (sampleXLoop_constTape_one 0.75 _ 0 (by norm_num) (by norm_num)
      (by rw [abs_sub_lt_iff]; push_neg; norm_num))]
  rw [generateBlockTrialsGo_constTape_step hR _ 1 1 0 (0 + 1) 1 1 0.75 rfl
    (by rw [if_neg hsw]) (by rw [if_neg (Nat.one_ne_zero)]; rfl)
    (sampleXLoop_constTape_one 0.75 _ (0 + 1) (by norm_num) (by norm_num)
      (by rw [abs_sub_lt_iff]; push_neg; norm_num))]
  simp [generateBlockTrialsGo, sideOf, wTrials0]

lemma generateBlockTrials_constTape_two_flip :
    generateBlockTrials 2 1 0.24 constTape 1 = some wTrials1 := by
  show generateBlockTrialsGo 1 (0.24 * (RIGHT_SOURCE_MEAN - LEFT_SOURCE_MEAN))
      constTape 1 2 0 (initialSource constTape) = _
  rw [initialSource_constTape]
  rw [generateBlockTrialsGo_constTape_step 1 _ 1 2 1 0 1 0 0.25 rfl
    (by rw [if_pos (by norm_num : (0.5 : ℝ) < 1)]; rfl)
    (by rw [if_pos rfl]; rfl)
    (sampleXLoop_constTape_one 0.25 _ 0 (by norm_num) (by norm_num)
      (by rw [abs_sub_lt_iff]; push_neg; norm_num))]
  rw [generateBlockTrialsGo_constTape_step 1 _ 1 1 0 (0 + 1) 0 1 0.75 rfl
    (by rw [if_pos (by norm_num : (0.5 : ℝ) < 1)]; rfl)
    (by rw [if_neg (Nat.one_ne_zero)]; rfl)
    (sampleXLoop_constTape_one 0.75 _ (0 + 1) (by norm_num) (by norm_num)
      (by rw [abs_sub_lt_iff]; push_neg; norm_num))]
  simp [generateBlockTrialsGo, sideOf, wTrials1]

/-- Witness for claim C3 at a concrete input: a one-trial block generated
at hazard 0.05, noise ratio 0.24 on the constant tape. -/
theorem generateBlockTrials_bounds_witness :
    0.05 ≤ witnessTrialR.x ∧ witnessTrialR.x ≤ 0.95 ∧
      0.05 ≤ witnessTrialR.y ∧ witnessTrialR.y ≤ 0.95 ∧
      0.01 ≤ |witnessTrialR.x - 0.5| :=
  generateBlockTrials_bounds 1 0.05 0.24 constTape 1 [witnessTrialR]
    (generateBlockTrials_constTape_one 0.05 (by norm_num)) witnessTrialR
    (List.mem_singleton.mpr rfl)

/-- Witness for claim C8 at a concrete input: two-trial blocks generated
at hazard 0 and hazard 1 on the constant tape. -/
theorem generateBlockTrials_extreme_hazard_witness :
    (∀ t ∈ wTrials0, t.source = sideOf (initialSource constTape)) ∧
    (0 < wTrials1.length →
      (wTrials1.getD 0 default).source =
        flipSide (sideOf (initialSource constTape))) ∧
    (∀ k, k + 1 < wTrials1.length →
      (wTrials1.getD (k + 1) default).source =
        flipSide ((wTrials1.getD k default).source)) :=
  generateBlockTrials_extreme_hazard 2 0.24 constTape 1 wTrials0 wTrials1
    (fun _ => (by norm_num : (0 : ℝ) ≤ 0.5))
    (fun _ => (by norm_num : (0.5 : ℝ) < 1))
    (generateBlockTrials_constTape_two_stay 0 (by norm_num))
    generateBlockTrials_constTape_two_flip

/-- A concrete session tape: identity shuffle, always-zero picks, the
constant block tape. -/
def constSessionTape : SessionTape where
  shuffledPool := ALLOWED_HAZARD_RATES
  pickIdx := fun _ => 0
  blockTape := fun _ => constTape

/-- A concrete single-block configuration. -/
def wConfig : LabConfig :=
  { hazardRate := 0.3, distributionSigma := 0.24, trialCount := 1,
    blockCount := 1 }

/-- The session generated from `wConfig` on the constant tapes. -/
def wSession : List SessionBlock :=
  [{ blockId := 1, hazardRate := 0.3, trials := [witnessTrialR] }]

lemma generateSessionData_constTape_eval :
    generateSessionData wConfig constSessionTape 1 = some wSession := by
  show (generateBlockTrials 1 0.3 0.24 constTape 1).map
      (fun ts =>
        [{ blockId := 1, hazardRate := 0.3, trials := ts }]) = some wSession
  rw [generateBlockTrials_constTape_one 0.3 (by norm_num)]
  rfl

/-- Witness for claim C5 at a concrete input: a single-block session from
`wConfig` on the constant tapes. -/
theorem generateSessionData_spec_witness :
    wSession.length = wConfig.blockCount ∧
    (∀ k, k < wSession.length → (wSession.getD k default).blockId = k + 1) ∧
    (wConfig.blockCount = 1 →
      ∀ k, k < wSession.length →
        (wSession.getD k default).hazardRate = wConfig.hazardRate) ∧
    (1 < wConfig.blockCount →
      (∀ blk ∈ wSession, blk.hazardRate ∈ ALLOWED_HAZARD_RATES) ∧
      (∀ i j, i < min wConfig.blockCount 7 → j < min wConfig.blockCount 7 →
        i ≠ j →
        (wSession.getD i default).hazardRate ≠
          (wSession.getD j default).hazardRate)) :=
  generateSessionData_spec wConfig constSessionTape 1 wSession
    (List.Perm.refl _) (fun _ => Nat.succ_pos 6) (le_refl 1)
    generateSessionData_constTape_eval

end
